import Mathlib

/-!
Verification of the installer-analyzer format-detection and MSI structured
extraction engine. The definitions below are a shallow embedding of the Rust
sources (src/analyzers/common.rs, src/analyzers/mod.rs,
src/analyzers/msi/tables.rs, src/analyzers/msi/analyzer.rs, src/core/types.rs):
file contents are byte lists (`List Nat`, each entry one byte), hash maps are
modelled as update-functions or association lists, fallible operations return
`Except`, and the two source loops without a structural bound (the chunked
file-search loop and the directory parent-chain walk) take an explicit fuel
argument; the search loop consumes at least one byte of input per iteration,
so `file.length` fuel is always sufficient and is what the wrapper passes.
-/

namespace InstallerAnalyzer

/-- Closed format tag, from `InstallerFormat` in src/core/types.rs. -/
inductive InstallerFormat where
  | msi
  | nsis
  | innoSetup
  | wix
  | installShield
  | pythonWheel
  | msix
  | squirrel
  | unknown
deriving DecidableEq, Repr

/-- Registry value type tags, from `RegistryValueType` in src/core/types.rs. -/
inductive RegistryValueType where
  | string
  | expandString
  | binary
  | dword
  | qword
  | multiString
deriving DecidableEq, Repr

/-- Registry value data, from `RegistryValue` in src/core/types.rs.
Bytes of a binary value are `Nat`, a u32 is a `Nat` below 2^32. -/
inductive RegistryValue where
  | string (s : String)
  | binary (bytes : List Nat)
  | dword (n : Nat)
  | qword (n : Nat)
  | multiString (ss : List String)
deriving DecidableEq, Repr

/-- Registry operations, from `RegistryOperation` in src/core/types.rs.
The `timestamp` fields hold `Utc::now()` observation wall-clock times and are
not modelled. -/
inductive RegistryOperation where
  | createKey (key_path : String)
  | setValue (key_path : String) (value_name : String)
      (value_type : RegistryValueType) (value_data : RegistryValue)
  | deleteKey (key_path : String)
  | deleteValue (key_path : String) (value_name : String)
deriving DecidableEq, Repr

/-- File attribute bits, from `FileAttributes` in src/core/types.rs. -/
structure FileAttributes where
  readonly : Bool
  hidden : Bool
  system : Bool
  executable : Bool
deriving DecidableEq, Repr

/-- Installed-file record, from `FileEntry` in src/core/types.rs. `PathBuf`
values are kept as the strings they were built from; the never-populated
`hash` field and the timestamps are as in the source. -/
structure FileEntry where
  path : String
  target_path : Option String
  size : Nat
  hash : Option String
  attributes : FileAttributes
  compression : Option String
deriving DecidableEq, Repr

/-- Installer metadata, from `InstallerMetadata` in src/core/types.rs; the
`created_at` wall-clock timestamp is not modelled and the property bag is an
association list in first-insertion order (the source `HashMap` has no
specified order). -/
structure InstallerMetadata where
  format : InstallerFormat
  product_name : Option String
  product_version : Option String
  manufacturer : Option String
  file_size : Nat
  file_hash : String
  properties : List (String × String)
deriving DecidableEq, Repr

/-! ## src/analyzers/common.rs -/

/-- Embeds `detect_format_by_extension`: the argument is
`file_path.extension().and_then(to_str)`. -/
def detect_format_by_extension (ext : Option String) : Option InstallerFormat :=
  match ext with
  | some "msi" => some .msi
  | some "exe" => none
  | some "whl" => some .pythonWheel
  | _ => none

/-- Embeds `is_pe_file`: reads up to the first two bytes of the file and
compares them against the `MZ` signature (0x4D 0x5A); a shorter file is not
PE. This is the entire check the source performs. -/
def is_pe_file (file : List Nat) : Bool :=
  match file.take 2 with
  | [b0, b1] => b0 == 0x4D && b1 == 0x5A
  | _ => false

/-- Chunk size of the streaming search loop in `search_file_content`. -/
def CHUNK_SIZE : Nat := 1048576

/-- Boundary overlap carried between chunks in `search_file_content`. -/
def OVERLAP_SIZE : Nat := 1024

/-- Embeds the inner per-chunk pattern loop of `search_file_content`: for each
pattern, if it occurs in the combined search buffer and was not recorded yet,
it is appended to the found list. The source checks
`search_text.contains(pattern)` on the lossily UTF-8 decoded buffer; for the
ASCII patterns in scope such a hit coincides with byte-level substring
containment, which is how it is embedded here. -/
def search_chunk (found : List (List Nat)) (searchBuffer : List Nat)
    (patterns : List (List Nat)) : List (List Nat) :=
  patterns.foldl
    (fun fnd p => if p <:+: searchBuffer ∧ p ∉ fnd then fnd ++ [p] else fnd)
    found

/-- Embeds the `while position < file_size` loop of `search_file_content`.
`rest` is the not-yet-read tail of the file, `overlapBuf` the trailing bytes
carried over from the previous chunk, `found` the patterns recorded so far.
Each iteration reads one chunk, searches `overlapBuf ++ chunk`, prepares the
next overlap (cleared for the final chunk), and stops early once every
pattern is found. The fuel argument only bounds the number of iterations;
since each iteration consumes at least one byte, `rest.length` fuel always
suffices. -/
def search_go (patterns : List (List Nat)) :
    Nat → List Nat → List Nat → List (List Nat) → List (List Nat)
  | 0, _, _, found => found
  | fuel + 1, rest, overlapBuf, found =>
    if rest = [] then found
    else
      let chunk := rest.take CHUNK_SIZE
      let searchBuffer := overlapBuf ++ chunk
      let found2 := search_chunk found searchBuffer patterns
      let rest2 := rest.drop CHUNK_SIZE
      let overlap2 := if rest2 = [] then [] else chunk.drop (chunk.length - OVERLAP_SIZE)
      if found2.length = patterns.length then found2
      else search_go patterns fuel rest2 overlap2 found2

/-- Embeds `search_file_content` for a file given by its byte list. -/
def search_file_content (file : List Nat) (patterns : List (List Nat)) :
    List (List Nat) :=
  search_go patterns file.length file [] []

/-- ASCII byte list of a pattern string literal. -/
def strBytes (s : String) : List Nat :=
  s.data.map Char.toNat

/-- NSIS fingerprint patterns of `detect_pe_installer_format`. -/
def nsis_patterns : List (List Nat) :=
  [strBytes "Nullsoft.NSIS.exehead", strBytes "NullsoftInst", strBytes "NSIS Error"]

/-- Inno Setup fingerprint patterns of `detect_pe_installer_format`. -/
def inno_patterns : List (List Nat) :=
  [strBytes "Inno Setup Setup Data", strBytes "JR.Inno.Setup", strBytes "InnoSetupVersion"]

/-- InstallShield fingerprint patterns of `detect_pe_installer_format`. -/
def installshield_patterns : List (List Nat) :=
  [strBytes "InstallShield", strBytes "InstallScript"]

/-- WiX fingerprint patterns of `detect_pe_installer_format`. -/
def wix_patterns : List (List Nat) :=
  [strBytes "Windows Installer XML", strBytes "WiX Toolset"]

/-- Embeds `detect_pe_installer_format`: runs the four pattern searches and
classifies by the first non-empty match list, defaulting to `Unknown`. -/
def detect_pe_installer_format (file : List Nat) : InstallerFormat :=
  let nsis_matches := search_file_content file nsis_patterns
  let inno_matches := search_file_content file inno_patterns
  let installshield_matches := search_file_content file installshield_patterns
  let wix_matches := search_file_content file wix_patterns
  if nsis_matches ≠ [] then .nsis
  else if inno_matches ≠ [] then .innoSetup
  else if installshield_matches ≠ [] then .installShield
  else if wix_matches ≠ [] then .wix
  else .unknown

/-- Embeds `detect_installer_format`: extension detection first, then for PE
files content-based detection, otherwise an unsupported-format error naming
the path. `pathText` is the display form of the path used in the message. -/
def detect_installer_format (ext : Option String) (file : List Nat)
    (pathText : String) : Except String InstallerFormat :=
  match detect_format_by_extension ext with
  | some format => .ok format
  | none =>
    if is_pe_file file then .ok (detect_pe_installer_format file)
    else .error ("Unable to determine installer format for: " ++ pathText)

/-! ## src/analyzers/msi/tables.rs -/

/-- MSI Property table row, from `PropertyEntry`. -/
structure PropertyEntry where
  property : String
  value : String
deriving DecidableEq, Repr

/-- MSI File table row, from `FileTableEntry` (i32 columns become `Int`). -/
structure FileTableEntry where
  file : String
  component : String
  filename : String
  file_size : Option Int
  version : Option String
  language : Option String
  attributes : Option Int
  sequence : Option Int
deriving DecidableEq, Repr

/-- MSI Directory table row, from `DirectoryEntry`. -/
structure DirectoryEntry where
  directory : String
  directory_parent : Option String
  default_dir : String
deriving DecidableEq, Repr

/-- MSI Registry table row, from `RegistryEntry` (`root` is an i32). -/
structure RegistryEntry where
  registry : String
  root : Int
  key : String
  name : Option String
  value : Option String
  component : String
deriving DecidableEq, Repr

/-- Embeds the short|long name decoding used for Directory and File names:
`if s.contains('|') { s.split('|').nth(1).unwrap_or(s) } else { s }`.
`List.splitOn` agrees with Rust `str::split` on a single-char separator. -/
def decodeName (s : String) : String :=
  if s.data.contains '|' then
    String.mk ((List.splitOn '|' s.data).getD 1 s.data)
  else s

/-- Pointwise update of a map modelled as a function, the set-theoretic
content of `HashMap::insert`. -/
def updateMap (m : String → Option String) (k v : String) :
    String → Option String :=
  fun x => if x = k then some v else m x

/-- Embeds the first pass of `build_directory_hierarchy`: directory id →
decoded display name, later rows overwriting earlier ones as `insert` does. -/
def dirMapOf (dirs : List DirectoryEntry) : String → Option String :=
  dirs.foldl (fun m d => updateMap m d.directory (decodeName d.default_dir))
    (fun _ => none)

/-- Embeds the first pass of `build_directory_hierarchy`: directory id →
parent id, recorded only for rows whose `Directory_Parent` is present. -/
def parentMapOf (dirs : List DirectoryEntry) : String → Option String :=
  dirs.foldl
    (fun m d =>
      match d.directory_parent with
      | some p => updateMap m d.directory p
      | none => m)
    (fun _ => none)

/-- Filter applied to each name met on the parent-chain walk in
`resolve_directory_path`: empty names, the sentinel root marker `TARGETDIR`
and `"."` are skipped. -/
def keepName (n : String) : Bool :=
  n ≠ "" && n ≠ "TARGETDIR" && n ≠ "."

/-- Embeds the `loop` of `resolve_directory_path`: walk the parent chain from
`currentId`, pushing each kept display name onto `path_parts` (modelled as an
accumulator appended in walk order). The source loop has no structural bound
and diverges on a parent cycle; the fuel argument cuts it off instead. -/
def resolveGo (dirMap parentMap : String → Option String) :
    Nat → String → List String → List String
  | 0, _, path_parts => path_parts
  | fuel + 1, currentId, path_parts =>
    let parts2 :=
      match dirMap currentId with
      | some dirName => if keepName dirName then path_parts ++ [dirName] else path_parts
      | none => path_parts
    match parentMap currentId with
    | some parentId => resolveGo dirMap parentMap fuel parentId parts2
    | none => parts2

/-- Embeds `resolve_directory_path`: walk up with `resolveGo`, reverse into
root-to-leaf order and join with a backslash. -/
def resolve_directory_path (fuel : Nat) (dirId : String)
    (dirMap parentMap : String → Option String) : String :=
  String.intercalate "\\" ((resolveGo dirMap parentMap fuel dirId []).reverse)

/-- Embeds the second pass of `build_directory_hierarchy` as the mapping it
produces: every id appearing in the name map is sent to its resolved path.
The source iterates `dir_map.keys()` in unspecified hash order; the resulting
key→path association is order-independent and is what is modelled. -/
def build_directory_hierarchy (fuel : Nat) (dirs : List DirectoryEntry) :
    String → Option String :=
  fun dirId =>
    match dirMapOf dirs dirId with
    | some _ => some (resolve_directory_path fuel dirId (dirMapOf dirs) (parentMapOf dirs))
    | none => none

/-- Parent-chain witness used to state acyclicity: the list of directory ids
visited walking from `dirId` to a root (a node with no parent entry), if a
root is reached within `fuel` steps. `resolveGo` visits exactly these ids. -/
def chainIds (parentMap : String → Option String) :
    Nat → String → Option (List String)
  | 0, _ => none
  | fuel + 1, dirId =>
    match parentMap dirId with
    | none => some [dirId]
    | some parentId => (chainIds parentMap fuel parentId).map (fun c => dirId :: c)

/-- Embeds `format_registry_key`: root sentinel to hive name, then
`"{root_name}\\{key}"`. -/
def format_registry_key (root : Int) (key : String) : String :=
  let root_name :=
    if root = -2147483648 then "HKEY_CLASSES_ROOT"
    else if root = -2147483647 then "HKEY_CURRENT_USER"
    else if root = -2147483646 then "HKEY_LOCAL_MACHINE"
    else if root = -2147483645 then "HKEY_USERS"
    else if root = -2147483644 then "HKEY_PERFORMANCE_DATA"
    else if root = -2147483643 then "HKEY_CURRENT_CONFIG"
    else if root = -2147483642 then "HKEY_DYN_DATA"
    else "UNKNOWN_ROOT"
  root_name ++ "\\" ++ key

/-- Root codes that `format_registry_key` maps to a named hive (the seven
match arms of the source other than the catch-all). -/
def msiRootCodes : List Int :=
  [-2147483648, -2147483647, -2147483646, -2147483645,
   -2147483644, -2147483643, -2147483642]

/-- Value of a single hex digit, as accepted by `hex::decode`. -/
def hexDigitVal (c : Char) : Option Nat :=
  if '0' ≤ c ∧ c ≤ '9' then some (c.toNat - 48)
  else if 'a' ≤ c ∧ c ≤ 'f' then some (c.toNat - 87)
  else if 'A' ≤ c ∧ c ≤ 'F' then some (c.toNat - 55)
  else none

/-- Embeds `hex::decode`: an even number of hex digits decodes pairwise to
bytes; an odd length or a non-hex character fails. -/
def hexDecode : List Char → Option (List Nat)
  | [] => some []
  | [_] => none
  | a :: b :: rest =>
    match hexDigitVal a, hexDigitVal b, hexDecode rest with
    | some hi, some lo, some bytes => some ((16 * hi + lo) :: bytes)
    | _, _, _ => none

/-- Numeric value of a decimal digit string (most significant first). -/
def digitsVal (ds : List Char) : Nat :=
  ds.foldl (fun acc c => 10 * acc + (c.toNat - 48)) 0

/-- Embeds `str::parse::<u32>`: an optional leading plus sign, then at least
one decimal digit, with the value required to fit in 32 bits. -/
def parseU32 (s : List Char) : Option Nat :=
  let digits := if s.head? = some '+' then s.tail else s
  if digits = [] then none
  else if digits.all (fun c => '0' ≤ c ∧ c ≤ '9') then
    if digitsVal digits < 4294967296 then some (digitsVal digits) else none
  else none

/-- Embeds `parse_registry_value`: a `#x` prefix with valid hex yields a
Binary value, a `#` prefix with a valid u32 yields a DWord, and every other
string (including failed decodes) falls through to a literal String value. -/
def parse_registry_value (value_str : String) : RegistryValueType × RegistryValue :=
  match value_str.data with
  | '#' :: 'x' :: hex_str =>
    match hexDecode hex_str with
    | some bytes => (.binary, .binary bytes)
    | none => (.string, .string value_str)
  | '#' :: stripped =>
    match parseU32 stripped with
    | some dword => (.dword, .dword dword)
    | none => (.string, .string value_str)
  | _ => (.string, .string value_str)

/-- Embeds `convert_to_registry_operations`: a row with name and value emits
one SetValue, a row with no name emits one CreateKey, and a row with a name
but no value emits nothing. -/
def convert_to_registry_operations (entries : List RegistryEntry) :
    List RegistryOperation :=
  entries.foldl
    (fun operations entry =>
      let key_path := format_registry_key entry.root entry.key
      match entry.name with
      | some name =>
        match entry.value with
        | some value_str =>
          let vt := (parse_registry_value value_str).1
          let vd := (parse_registry_value value_str).2
          operations ++ [.setValue key_path name vt vd]
        | none => operations
      | none => operations ++ [.createKey key_path])
    []

/-- Number of backslashes in a string, as `path.matches('\\').count()`. -/
def countSep (s : String) : Nat :=
  (s.data.filter (fun c => c = '\\')).length

/-- Embeds `Iterator::max_by_key` over the filtered hierarchy values: `none`
on an empty list, otherwise the last element attaining the maximal key, which
is what `max_by_key` returns on ties. -/
def maxByCountSep (paths : List String) : Option String :=
  paths.foldl
    (fun best p =>
      match best with
      | none => some p
      | some b => if countSep b ≤ countSep p then some p else some b)
    none

/-- Embeds `resolve_file_path`: the simplified heuristic that puts the file
under the deepest (most backslashes) non-empty resolved directory path, or
bare if there is none. -/
def resolve_file_path (_component : String) (filename : String)
    (dirValues : List String) : String :=
  match maxByCountSep (dirValues.filter (fun p => p ≠ "")) with
  | some dir_path => dir_path ++ "\\" ++ filename
  | none => filename

/-- Two's-complement reinterpretation `i32 as u64` used for
`file.file_size.unwrap_or(0) as u64`. -/
def i32_as_u64 (v : Int) : Nat :=
  (v % (18446744073709551616 : Int)).toNat

/-- Suffix test on strings by their character lists (Rust `str::ends_with`). -/
def endsWithStr (s suffix : String) : Bool :=
  List.isSuffixOf suffix.data s.data

/-- Embeds `convert_to_file_entries`. The hierarchy values are enumerated in
first-occurrence order of the directory ids (the source `HashMap` iterates in
unspecified order; only `resolve_file_path`'s max choice consumes the order). -/
def convert_to_file_entries (fuel : Nat) (files : List FileTableEntry)
    (directories : List DirectoryEntry) : List FileEntry :=
  let hierarchy := build_directory_hierarchy fuel directories
  let dirValues := ((directories.map (fun d => d.directory)).eraseDups).filterMap hierarchy
  files.foldl
    (fun file_entries file =>
      let display_name := decodeName file.filename
      let full_path := resolve_file_path file.component display_name dirValues
      let attributes : FileAttributes :=
        { readonly := match file.attributes with
            | some a => Int.land a 1 != 0
            | none => false
          hidden := match file.attributes with
            | some a => Int.land a 2 != 0
            | none => false
          system := match file.attributes with
            | some a => Int.land a 4 != 0
            | none => false
          executable := endsWithStr display_name ".exe" || endsWithStr display_name ".dll" }
      file_entries ++
        [{ path := full_path
           target_path := some ("TARGETDIR\\" ++ full_path)
           size := i32_as_u64 (file.file_size.getD 0)
           hash := none
           attributes := attributes
           compression := some "CAB" }])
    []

/-! ## src/analyzers/msi/analyzer.rs

The embedded relational store is reached through the `msi` crate wrapped by
`MsiDatabase`; its behaviour is abstracted as an oracle record supplying the
outcome of `MsiDatabase::open` and of the four table queries, so that the
analyzer's error plumbing is embedded exactly while the native store stays
abstract. -/

/-- Outcomes of opening the store and of the four fixed table queries. -/
structure MsiOracle (ε δ : Type) where
  openDb : Except ε δ
  queryProperties : δ → Except ε (List PropertyEntry)
  queryFiles : δ → Except ε (List FileTableEntry)
  queryDirectories : δ → Except ε (List DirectoryEntry)
  queryRegistry : δ → Except ε (List RegistryEntry)

/-- Set-content of `HashMap::insert` on an association list kept in
first-insertion order: replace the value if the key exists, else append. -/
def insertAssoc (m : List (String × String)) (k v : String) :
    List (String × String) :=
  if m.any (fun kv => kv.1 = k) then
    m.map (fun kv => if kv.1 = k then (k, v) else kv)
  else m ++ [(k, v)]

/-- Embeds the property loop of `extract_msi_metadata`: scans the Property
rows for ProductName/ProductVersion/Manufacturer (last occurrence wins) while
inserting every row into the property bag. -/
def accumProps (props : List PropertyEntry) :
    Option String × Option String × Option String × List (String × String) :=
  props.foldl
    (fun acc prop =>
      let pn := if prop.property = "ProductName" then some prop.value else acc.1
      let pv := if prop.property = "ProductVersion" then some prop.value else acc.2.1
      let mf := if prop.property = "Manufacturer" then some prop.value else acc.2.2.1
      (pn, pv, mf, insertAssoc acc.2.2.2 prop.property prop.value))
    (none, none, none, [])

/-- Embeds `extract_msi_metadata`: a failed store open or a failed Property
query is logged and degraded to empty metadata fields, never propagated; the
function then always returns Ok. `file_size` and `file_hash` stand for the
results of the preceding successful file-system calls. -/
def extract_msi_metadata {ε δ : Type} (o : MsiOracle ε δ) (file_size : Nat)
    (file_hash : String) : Except ε InstallerMetadata :=
  let extracted :=
    match o.openDb with
    | .ok db =>
      match o.queryProperties db with
      | .ok props => accumProps props
      | .error _ => (none, none, none, [])
    | .error _ => (none, none, none, [])
  let properties :=
    insertAssoc (insertAssoc extracted.2.2.2 "format_version" "MSI")
      "file_type" "Windows Installer Package"
  .ok
    { format := .msi
      product_name := extracted.1
      product_version := extracted.2.1
      manufacturer := extracted.2.2.1
      file_size := file_size
      file_hash := file_hash
      properties := properties }

/-- Embeds `extract_msi_files`: `?` on the store open and on the File and
Directory queries, then the pure conversion. -/
def extract_msi_files {ε δ : Type} (o : MsiOracle ε δ) (fuel : Nat) :
    Except ε (List FileEntry) :=
  match o.openDb with
  | .error e => .error e
  | .ok db =>
    match o.queryFiles db with
    | .error e => .error e
    | .ok files =>
      match o.queryDirectories db with
      | .error e => .error e
      | .ok directories => .ok (convert_to_file_entries fuel files directories)

/-- Embeds `extract_msi_registry`: `?` on the store open and on the Registry
query, then the pure conversion. -/
def extract_msi_registry {ε δ : Type} (o : MsiOracle ε δ) :
    Except ε (List RegistryOperation) :=
  match o.openDb with
  | .error e => .error e
  | .ok db =>
    match o.queryRegistry db with
    | .error e => .error e
    | .ok registry_entries => .ok (convert_to_registry_operations registry_entries)

/-! ## src/analyzers/mod.rs -/

/-- The eight analyzers `create_analyzer` can instantiate. -/
inductive AnalyzerKind where
  | wix
  | msi
  | pythonWheel
  | msix
  | installShield
  | squirrel
  | nsis
  | innoSetup
deriving DecidableEq, Repr

/-- Dispatch failure: either a probe error propagated by `?`, or the
unsupported-format error produced when every probe declines. -/
inductive DispatchError (ε : Type) where
  | probe (e : ε)
  | unsupportedFormat (msg : String)
deriving DecidableEq, Repr

/-- Probe order of the eight sequential blocks in `create_analyzer`. -/
def analyzer_priority : List AnalyzerKind :=
  [.wix, .msi, .pythonWheel, .msix, .installShield, .squirrel, .nsis, .innoSetup]

/-- Embeds the sequential probing of `create_analyzer` over a remaining
candidate list: each block awaits `can_analyze`, propagates its error with
`?`, returns the analyzer on true, and falls through on false. -/
def create_analyzer_go {ε : Type} (can_analyze : AnalyzerKind → Except ε Bool)
    (pathText : String) : List AnalyzerKind → Except (DispatchError ε) AnalyzerKind
  | [] => .error (.unsupportedFormat ("No analyzer found for file: " ++ pathText))
  | k :: ks =>
    match can_analyze k with
    | .error e => .error (.probe e)
    | .ok true => .ok k
    | .ok false => create_analyzer_go can_analyze pathText ks

/-- Embeds `AnalyzerFactory::create_analyzer`: the unrolled eight-block
sequence is the fold of `create_analyzer_go` over `analyzer_priority`. -/
def create_analyzer {ε : Type} (can_analyze : AnalyzerKind → Except ε Bool)
    (pathText : String) : Except (DispatchError ε) AnalyzerKind :=
  create_analyzer_go can_analyze pathText analyzer_priority

/-! ## General helper lemmas -/

/-- A suffix stays a suffix after appending the same tail on the right. -/
lemma suffixAppendRight {α : Type} {l₁ l₂ : List α} (t : List α)
    (h : l₁ <:+ l₂) : l₁ ++ t <:+ l₂ ++ t := by
  obtain ⟨u, hu⟩ := h
  exact ⟨u, by rw [← hu, List.append_assoc]⟩

/-- Every suffix is an infix. -/
lemma infixFromSuffixFact {α : Type} {l₁ l₂ : List α} (h : l₁ <:+ l₂) :
    l₁ <:+: l₂ := by
  obtain ⟨u, hu⟩ := h
  exact ⟨u, [], by simp [hu]⟩

/-- Every prefix is an infix. -/
lemma infixFromPrefixFact {α : Type} {l₁ l₂ : List α} (h : l₁ <+: l₂) :
    l₁ <:+: l₂ := by
  obtain ⟨u, hu⟩ := h
  exact ⟨[], u, by simpa using hu⟩

/-- Folding a step function that only appends to its accumulator factors over
the initial accumulator. -/
lemma foldl_acc_append {α β : Type} (g : List α → β → List α)
    (hg : ∀ acc e, g acc e = acc ++ g [] e) (l : List β) :
    ∀ acc, l.foldl g acc = acc ++ l.foldl g [] := by
  induction l with
  | nil => intro acc; simp
  | cons e es ih =>
    intro acc
    rw [List.foldl_cons, ih (g acc e), hg acc e, List.foldl_cons,
      ih (g [] e), List.append_assoc]

/-! ## Claim C4 -/

/-- Claim C4, counterexample: a Registry row whose Name is present but whose
Value is absent produces no operation at all, not the CreateKey operation the
claim asserts. -/
theorem convert_to_registry_operations_name_no_value_cex :
    convert_to_registry_operations
      [{ registry := "r1", root := -2147483646, key := "Software\\Example",
         name := some "Version", value := none, component := "c1" }] = [] := by
  decide

/-- Claim C4 (amended): a Registry row with Name and Value emits exactly one
SetValue, a row with no Name emits exactly one CreateKey for its key path,
and a row with a Name but no Value emits no operation at all; conversion of a
concatenation is the concatenation of the conversions, so the per-row
description determines the whole output. -/
theorem convert_to_registry_operations_row_spec :
    (∀ entry : RegistryEntry, entry.name = none →
        convert_to_registry_operations [entry]
          = [.createKey (format_registry_key entry.root entry.key)]) ∧
    (∀ entry : RegistryEntry, ∀ n, entry.name = some n → entry.value = none →
        convert_to_registry_operations [entry] = []) ∧
    (∀ entry : RegistryEntry, ∀ n v, entry.name = some n → entry.value = some v →
        convert_to_registry_operations [entry]
          = [.setValue (format_registry_key entry.root entry.key) n
              (parse_registry_value v).1 (parse_registry_value v).2]) ∧
    (∀ l1 l2 : List RegistryEntry,
        convert_to_registry_operations (l1 ++ l2)
          = convert_to_registry_operations l1 ++ convert_to_registry_operations l2) := by
  have hg : ∀ (acc : List RegistryOperation) (e : RegistryEntry),
      (fun operations entry =>
        let key_path := format_registry_key entry.root entry.key
        match entry.name with
        | some name =>
          match entry.value with
          | some value_str =>
            let vt := (parse_registry_value value_str).1
            let vd := (parse_registry_value value_str).2
            operations ++ [RegistryOperation.setValue key_path name vt vd]
          | none => operations
        | none => operations ++ [RegistryOperation.createKey key_path]) acc e
      = acc ++
        (fun operations entry =>
          let key_path := format_registry_key entry.root entry.key
          match entry.name with
          | some name =>
            match entry.value with
            | some value_str =>
              let vt := (parse_registry_value value_str).1
              let vd := (parse_registry_value value_str).2
              operations ++ [RegistryOperation.setValue key_path name vt vd]
            | none => operations
          | none => operations ++ [RegistryOperation.createKey key_path]) [] e := by
    intro acc e
    rcases e with ⟨reg, root, key, nm, vl, comp⟩
    cases nm with
    | none => simp
    | some n =>
      cases vl with
      | none => simp
      | some v => simp
  refine ⟨?_, ?_, ?_, ?_⟩
  · intro entry hn
    rcases entry with ⟨reg, root, key, nm, vl, comp⟩
    cases hn
    simp [convert_to_registry_operations]
  · intro entry n hn hv
    rcases entry with ⟨reg, root, key, nm, vl, comp⟩
    cases hn
    cases hv
    simp [convert_to_registry_operations]
  · intro entry n v hn hv
    rcases entry with ⟨reg, root, key, nm, vl, comp⟩
    cases hn
    cases hv
    simp [convert_to_registry_operations]
  · intro l1 l2
    simp only [convert_to_registry_operations]
    rw [List.foldl_append, foldl_acc_append _ hg]

/-- Claim C4 witness: the amended row behaviour evaluated on concrete rows. -/
theorem convert_to_registry_operations_row_witness :
    convert_to_registry_operations
        [{ registry := "r0", root := -2147483646, key := "Software\\K",
           name := none, value := none, component := "c" }]
      = [.createKey "HKEY_LOCAL_MACHINE\\Software\\K"] ∧
    convert_to_registry_operations
        [{ registry := "r2", root := -2147483647, key := "Software\\K2",
           name := some "N", value := none, component := "c" }] = [] := by
  constructor
  · exact (convert_to_registry_operations_row_spec.1 _ rfl).trans (by decide)
  · exact convert_to_registry_operations_row_spec.2.1 _ "N" rfl rfl

/-! ## Claim C5 -/

/-- Claim C5, counterexample: the source maps seven sentinel integers to hive
names, not six; the seventh, -2147483642, lies outside the six the claim
fixes yet is mapped to HKEY_DYN_DATA rather than to UNKNOWN_ROOT. -/
theorem format_registry_key_seventh_sentinel_cex :
    format_registry_key (-2147483642) "Software" = "HKEY_DYN_DATA\\Software" ∧
    format_registry_key (-2147483642) "Software" ≠ "UNKNOWN_ROOT\\Software" ∧
    msiRootCodes.length = 7 ∧
    (msiRootCodes.map (fun r => format_registry_key r "K")).all
      (fun s => s ≠ "UNKNOWN_ROOT\\K") = true := by
  decide

/-- Claim C5 (amended): the mapping assigns hive names to exactly the seven
sentinel integers -2147483648..-2147483642, with -2147483646 mapped to
HKEY_LOCAL_MACHINE; every other integer, e.g. 999, is mapped to the explicit
UNKNOWN_ROOT marker, with no panic and no substituted hive, and the key path
is always the hive name joined to the key with a backslash. -/
theorem format_registry_key_root_spec (root : Int) (key : String) :
    (root = -2147483646 →
        format_registry_key root key = "HKEY_LOCAL_MACHINE\\" ++ key) ∧
    (root ∉ msiRootCodes →
        format_registry_key root key = "UNKNOWN_ROOT\\" ++ key) ∧
    (∀ r ∈ msiRootCodes, ∃ hive, hive ≠ "UNKNOWN_ROOT" ∧
        format_registry_key r key = hive ++ "\\" ++ key) := by
  refine ⟨?_, ?_, ?_⟩
  · rintro rfl
    rfl
  · intro hroot
    have h1 : ¬ root = -2147483648 := by rintro rfl; exact hroot (by decide)
    have h2 : ¬ root = -2147483647 := by rintro rfl; exact hroot (by decide)
    have h3 : ¬ root = -2147483646 := by rintro rfl; exact hroot (by decide)
    have h4 : ¬ root = -2147483645 := by rintro rfl; exact hroot (by decide)
    have h5 : ¬ root = -2147483644 := by rintro rfl; exact hroot (by decide)
    have h6 : ¬ root = -2147483643 := by rintro rfl; exact hroot (by decide)
    have h7 : ¬ root = -2147483642 := by rintro rfl; exact hroot (by decide)
    simp [format_registry_key, h1, h2, h3, h4, h5, h6, h7]
  · intro r hr
    simp only [msiRootCodes, List.mem_cons, List.not_mem_nil, or_false] at hr
    rcases hr with rfl | rfl | rfl | rfl | rfl | rfl | rfl
    · exact ⟨"HKEY_CLASSES_ROOT", by decide, rfl⟩
    · exact ⟨"HKEY_CURRENT_USER", by decide, rfl⟩
    · exact ⟨"HKEY_LOCAL_MACHINE", by decide, rfl⟩
    · exact ⟨"HKEY_USERS", by decide, rfl⟩
    · exact ⟨"HKEY_PERFORMANCE_DATA", by decide, rfl⟩
    · exact ⟨"HKEY_CURRENT_CONFIG", by decide, rfl⟩
    · exact ⟨"HKEY_DYN_DATA", by decide, rfl⟩

/-- Claim C5 witness: the HKLM sentinel and the 999 out-of-range code of the
claim, through the spec theorem. -/
theorem format_registry_key_root_witness :
    format_registry_key (-2147483646) "Software" = "HKEY_LOCAL_MACHINE\\Software" ∧
    format_registry_key 999 "Software" = "UNKNOWN_ROOT\\Software" :=
  ⟨(format_registry_key_root_spec (-2147483646) "Software").1 rfl,
   (format_registry_key_root_spec 999 "Software").2.1 (by decide)⟩

/-! ## Claim C8 -/

/-- Claim C8, counterexample: a two-byte buffer holding just the MZ signature
is shorter than the 64-byte DOS header and contains no PE signature, yet the
header check classifies it as PE, refuting the claim that buffers shorter
than the DOS header are never PE. -/
theorem is_pe_file_short_buffer_cex :
    is_pe_file [0x4D, 0x5A] = true ∧ ([0x4D, 0x5A] : List Nat).length < 64 := by
  decide

/-- Claim C8 (amended): the header check consults only the two-byte MZ
signature, so a buffer classifies as PE exactly when it starts with the bytes
0x4D 0x5A; in particular every buffer carrying MZ plus a valid PE signature
is PE, buffers shorter than two bytes are never PE and there is no panic, but
the PE signature at the DOS-header offset is never read. -/
theorem is_pe_file_iff_mz (file : List Nat) :
    is_pe_file file = true ↔ ∃ rest, file = 0x4D :: 0x5A :: rest := by
  cases file with
  | nil => simp [is_pe_file]
  | cons b0 t =>
    cases t with
    | nil =>
      constructor
      · intro h; exact absurd h (by simp [is_pe_file])
      · rintro ⟨rest, h⟩; cases h
    | cons b1 t2 =>
      have hred : is_pe_file (b0 :: b1 :: t2) = (b0 == 0x4D && b1 == 0x5A) := rfl
      rw [hred]
      simp only [Bool.and_eq_true, beq_iff_eq]
      constructor
      · rintro ⟨rfl, rfl⟩; exact ⟨t2, rfl⟩
      · rintro ⟨rest, h⟩
        injection h with h0 h
        injection h with h1 h
        exact ⟨h0, h1⟩

/-! ## Claim C9 -/

/-- Claim C9: registry value decoding sends a `#x` prefix with valid hex to
the Binary value of the decoded bytes, a `#` prefix (not `#x`) followed by
the decimal digits of an unsigned 32-bit integer to that DWord value, and
every other string to the literal String value of itself. -/
theorem parse_registry_value_spec :
    (∀ (s : String) (bytes : List Nat), hexDecode s.data = some bytes →
        parse_registry_value ("#x" ++ s) = (.binary, .binary bytes)) ∧
    (∀ (s : String) (ds : List Char), s.data = '#' :: ds → ds ≠ [] →
        (∀ c ∈ ds, '0' ≤ c ∧ c ≤ '9') → digitsVal ds < 4294967296 →
        parse_registry_value s = (.dword, .dword (digitsVal ds))) ∧
    (∀ s : String,
        (∀ rest, s.data = '#' :: 'x' :: rest → hexDecode rest = none) →
        (∀ rest, s.data = '#' :: rest →
            (∃ r2, rest = 'x' :: r2) ∨ parseU32 rest = none) →
        parse_registry_value s = (.string, .string s)) := by
  refine ⟨?_, ?_, ?_⟩
  · intro s bytes hhex
    have hdata : ("#x" ++ s).data = '#' :: 'x' :: s.data := by
      rw [String.data_append]
      exact rfl
    simp only [parse_registry_value, hdata, hhex]
  · intro s ds hdata hne hdig hlt
    obtain ⟨c, cs, rfl⟩ : ∃ c cs, ds = c :: cs := by
      cases ds with
      | nil => exact absurd rfl hne
      | cons c cs => exact ⟨c, cs, rfl⟩
    have hc : '0' ≤ c ∧ c ≤ '9' := hdig c (List.mem_cons_self _ _)
    have hcx : c ≠ 'x' := by rintro rfl; exact absurd hc (by decide)
    have hcp : c ≠ '+' := by rintro rfl; exact absurd hc (by decide)
    have hp : parseU32 (c :: cs) = some (digitsVal (c :: cs)) := by
      have hhead : ((c :: cs).head? = some '+') = False := by
        simp [hcp]
      simp only [parseU32, hhead, if_false, List.all_eq_true]
      rw [if_neg (List.cons_ne_nil c cs), if_pos, if_pos hlt]
      intro x hx
      simpa using hdig x hx
    simp only [parse_registry_value, hdata]
    split
    · next hex_str heq =>
      exfalso
      injection heq with h1 h2
      injection h2 with h2 _
      exact hcx h2
    · next stripped heq =>
      injection heq with h1 h2
      rw [← h2, hp]
    · next hne1 hne2 =>
      exact absurd rfl (hne2 (c :: cs))
  · intro s hhex hnum
    simp only [parse_registry_value]
    split
    · next hex_str heq =>
      rw [hhex hex_str heq]
    · next stripped hexcl heq =>
      rcases hnum stripped heq with ⟨r2, rfl⟩ | hnone
      · exact absurd rfl (hexcl r2)
      · rw [hnone]
    · rfl

/-- Claim C9 witness: the three round-trip examples of the claim, via the
spec theorem. -/
theorem parse_registry_value_spec_witness :
    parse_registry_value "#x48656c6c6f" = (.binary, .binary [0x48, 0x65, 0x6c, 0x6c, 0x6f]) ∧
    parse_registry_value "#123" = (.dword, .dword 123) ∧
    parse_registry_value "plain" = (.string, .string "plain") := by
  refine ⟨?_, ?_, ?_⟩
  · exact parse_registry_value_spec.1 "48656c6c6f" [0x48, 0x65, 0x6c, 0x6c, 0x6f] (by decide)
  · exact parse_registry_value_spec.2.1 "#123" ['1', '2', '3'] rfl (by decide)
      (by decide) (by decide)
  · exact parse_registry_value_spec.2.2 "plain" (fun rest h => by simp at h)
      (fun rest h => by simp at h)

/-! ## Claim C3 -/

/-- Characterization of a successful dispatch over any candidate list: the
returned analyzer is the first whose probe accepts, every earlier probe
having returned false. -/
lemma create_analyzer_go_ok_iff {ε : Type} (can_analyze : AnalyzerKind → Except ε Bool)
    (pathText : String) :
    ∀ (ks : List AnalyzerKind) (k : AnalyzerKind),
      create_analyzer_go can_analyze pathText ks = .ok k ↔
        ∃ l1 l2, ks = l1 ++ k :: l2 ∧ (∀ a ∈ l1, can_analyze a = .ok false) ∧
          can_analyze k = .ok true := by
  intro ks
  induction ks with
  | nil =>
    intro k
    constructor
    · intro h
      exact absurd h (by simp [create_analyzer_go])
    · rintro ⟨l1, l2, h, -, -⟩
      have hlen := congrArg List.length h
      simp [List.length_append] at hlen
      omega
  | cons a ks ih =>
    intro k
    cases hpa : can_analyze a with
    | error e =>
      simp only [create_analyzer_go, hpa]
      constructor
      · intro h
        exact absurd h (by simp)
      · rintro ⟨l1, l2, hsplit, hall, hk⟩
        exfalso
        cases l1 with
        | nil =>
          injection hsplit with h1 _
          subst h1
          rw [hpa] at hk
          exact absurd hk (by simp)
        | cons b l1' =>
          injection hsplit with h1 _
          subst h1
          have := hall a (List.mem_cons_self _ _)
          rw [hpa] at this
          exact absurd this (by simp)
    | ok b =>
      cases b with
      | true =>
        simp only [create_analyzer_go, hpa]
        constructor
        · intro h
          injection h with h1
          subst h1
          exact ⟨[], ks, rfl, by simp, hpa⟩
        · rintro ⟨l1, l2, hsplit, hall, hk⟩
          cases l1 with
          | nil =>
            injection hsplit with h1 _
            rw [h1]
          | cons b l1' =>
            injection hsplit with h1 _
            subst h1
            have := hall a (List.mem_cons_self _ _)
            rw [hpa] at this
            exact absurd this (by simp)
      | false =>
        simp only [create_analyzer_go, hpa]
        rw [ih k]
        constructor
        · rintro ⟨l1, l2, hsplit, hall, hk⟩
          refine ⟨a :: l1, l2, by rw [List.cons_append, hsplit], ?_, hk⟩
          intro x hx
          rcases List.mem_cons.mp hx with rfl | hx
          · exact hpa
          · exact hall x hx
        · rintro ⟨l1, l2, hsplit, hall, hk⟩
          cases l1 with
          | nil =>
            injection hsplit with h1 _
            subst h1
            rw [hpa] at hk
            exact absurd hk (by simp)
          | cons b l1' =>
            injection hsplit with h1 h2
            subst h1
            refine ⟨l1', l2, h2, ?_, hk⟩
            intro x hx
            exact hall x (List.mem_cons_of_mem _ hx)

/-- A probe error on the first not-declined candidate aborts the dispatch
with that error. -/
lemma create_analyzer_go_error_probe {ε : Type} (can_analyze : AnalyzerKind → Except ε Bool)
    (pathText : String) (e : ε) :
    ∀ (l1 : List AnalyzerKind) (k : AnalyzerKind) (l2 : List AnalyzerKind),
      (∀ a ∈ l1, can_analyze a = .ok false) → can_analyze k = .error e →
      create_analyzer_go can_analyze pathText (l1 ++ k :: l2) = .error (.probe e) := by
  intro l1
  induction l1 with
  | nil =>
    intro k l2 _ hk
    simp [create_analyzer_go, hk]
  | cons a l1' ih =>
    intro k l2 hall hk
    have hpa : can_analyze a = .ok false := hall a (List.mem_cons_self _ _)
    simp only [List.cons_append, create_analyzer_go, hpa]
    exact ih k l2 (fun x hx => hall x (List.mem_cons_of_mem _ hx)) hk

/-- When every probe declines, the dispatch fails with the unsupported-format
error naming the path. -/
lemma create_analyzer_go_all_false {ε : Type} (can_analyze : AnalyzerKind → Except ε Bool)
    (pathText : String) :
    ∀ ks : List AnalyzerKind, (∀ a ∈ ks, can_analyze a = .ok false) →
      create_analyzer_go can_analyze pathText ks
        = .error (.unsupportedFormat ("No analyzer found for file: " ++ pathText)) := by
  intro ks
  induction ks with
  | nil => intro _; rfl
  | cons a ks ih =>
    intro hall
    have hpa := hall a (List.mem_cons_self _ _)
    simp only [create_analyzer_go, hpa]
    exact ih (fun x hx => hall x (List.mem_cons_of_mem _ hx))

/-- Claim C3: the dispatcher probes WiX, MSI, PythonWheel, MSIX,
InstallShield, Squirrel, NSIS, InnoSetup in that order and returns the
first acceptor; a probe error propagates immediately; if every probe
declines it fails with an unsupported-format error naming the path; and a
file accepted by the WiX probe is always dispatched to WiX, never to plain
MSI. -/
theorem create_analyzer_dispatch_spec {ε : Type}
    (can_analyze : AnalyzerKind → Except ε Bool) (pathText : String) :
    (∀ k, create_analyzer can_analyze pathText = .ok k ↔
        ∃ l1 l2, analyzer_priority = l1 ++ k :: l2 ∧
          (∀ a ∈ l1, can_analyze a = .ok false) ∧ can_analyze k = .ok true) ∧
    (∀ e k l1 l2, analyzer_priority = l1 ++ k :: l2 →
        (∀ a ∈ l1, can_analyze a = .ok false) → can_analyze k = .error e →
        create_analyzer can_analyze pathText = .error (.probe e)) ∧
    ((∀ a ∈ analyzer_priority, can_analyze a = .ok false) →
        create_analyzer can_analyze pathText
          = .error (.unsupportedFormat ("No analyzer found for file: " ++ pathText))) ∧
    (can_analyze .wix = .ok true →
        create_analyzer can_analyze pathText = .ok .wix) := by
  refine ⟨?_, ?_, ?_, ?_⟩
  · intro k
    exact create_analyzer_go_ok_iff can_analyze pathText analyzer_priority k
  · intro e k l1 l2 hsplit hall hk
    have h := create_analyzer_go_error_probe can_analyze pathText e l1 k l2 hall hk
    rw [create_analyzer, hsplit]
    exact h
  · intro hall
    exact create_analyzer_go_all_false can_analyze pathText analyzer_priority hall
  · intro hw
    simp [create_analyzer, analyzer_priority, create_analyzer_go, hw]

/-- Probe accepting both the WiX and the MSI analyzer, as for a WiX-built
MSI file. -/
def probeWixMsi : AnalyzerKind → Except Unit Bool
  | .wix => .ok true
  | .msi => .ok true
  | _ => .ok false

/-- Probe declining every analyzer. -/
def probeAllFalse : AnalyzerKind → Except Unit Bool :=
  fun _ => .ok false

/-- Claim C3 witness: a file accepted by both the WiX and MSI probes is
dispatched to WiX, and a file declined by all probes yields the
unsupported-format error naming it. -/
theorem create_analyzer_dispatch_spec_witness :
    create_analyzer probeWixMsi "setup.msi" = .ok .wix ∧
    create_analyzer probeAllFalse "data.bin"
      = .error (.unsupportedFormat "No analyzer found for file: data.bin") :=
  ⟨(create_analyzer_dispatch_spec probeWixMsi "setup.msi").2.2.2 rfl,
   ((create_analyzer_dispatch_spec probeAllFalse "data.bin").2.2.1 (fun _ _ => rfl)).trans rfl⟩

/-! ## Claim C7 -/

/-- Oracle for a store whose open fails outright. -/
def oracleOpenFail : MsiOracle String Unit where
  openDb := .error "failed to open MSI database"
  queryProperties := fun _ => .error "no store"
  queryFiles := fun _ => .error "no store"
  queryDirectories := fun _ => .error "no store"
  queryRegistry := fun _ => .error "no store"

/-- Oracle for a store that opens, whose File query fails while the other
queries succeed. -/
def oracleFilesQueryFail : MsiOracle String Unit where
  openDb := .ok ()
  queryProperties := fun _ => .ok []
  queryFiles := fun _ => .error "File table query failed"
  queryDirectories := fun _ => .ok []
  queryRegistry := fun _ =>
    .ok [{ registry := "r0", root := -2147483646, key := "Software\\K",
           name := none, value := none, component := "c" }]

/-- Claim C7, counterexample: when opening the store fails, the metadata
extraction still returns Ok (with empty product fields) instead of
propagating the error, contradicting the claim that an open failure makes
each of the three extraction operations return an error immediately. -/
theorem extract_msi_metadata_swallows_open_error_cex :
    (extract_msi_metadata oracleOpenFail 10 "hash").isOk = true := rfl

/-- Claim C7 (amended): an open failure propagates immediately from the
file-list and registry extractions but is swallowed by the metadata
extraction, which always returns Ok and degrades the product fields to none;
after a successful open, a failing query fails exactly the operation that
issued it, each operation depending only on its own queries, so the caller
can still obtain the other results. -/
theorem msi_extraction_error_handling {ε δ : Type} (o : MsiOracle ε δ)
    (fuel file_size : Nat) (file_hash : String) :
    (∀ e, o.openDb = .error e →
        extract_msi_files o fuel = .error e ∧
        extract_msi_registry o = .error e ∧
        ∃ m, extract_msi_metadata o file_size file_hash = .ok m ∧
          m.product_name = none ∧ m.product_version = none ∧
          m.manufacturer = none) ∧
    (∀ db e, o.openDb = .ok db → o.queryFiles db = .error e →
        extract_msi_files o fuel = .error e) ∧
    (∀ db e, o.openDb = .ok db → o.queryRegistry db = .error e →
        extract_msi_registry o = .error e) ∧
    (∀ db registry_entries, o.openDb = .ok db →
        o.queryRegistry db = .ok registry_entries →
        extract_msi_registry o = .ok (convert_to_registry_operations registry_entries)) ∧
    (∀ db files directories, o.openDb = .ok db → o.queryFiles db = .ok files →
        o.queryDirectories db = .ok directories →
        extract_msi_files o fuel = .ok (convert_to_file_entries fuel files directories)) := by
  refine ⟨?_, ?_, ?_, ?_, ?_⟩
  · intro e he
    refine ⟨?_, ?_, ?_⟩
    · simp [extract_msi_files, he]
    · simp [extract_msi_registry, he]
    · simp only [extract_msi_metadata, he]
      exact ⟨_, rfl, rfl, rfl, rfl⟩
  · intro db e hdb hq
    simp [extract_msi_files, hdb, hq]
  · intro db e hdb hq
    simp [extract_msi_registry, hdb, hq]
  · intro db registry_entries hdb hq
    simp [extract_msi_registry, hdb, hq]
  · intro db files directories hdb hqf hqd
    simp [extract_msi_files, hdb, hqf, hqd]

/-- Claim C7 witness: concrete oracles showing the open failure propagating
from the file extraction, the File-query failure failing only the file
extraction, and the registry extraction still succeeding on the same
oracle. -/
theorem msi_extraction_error_handling_witness :
    extract_msi_files oracleOpenFail 4 = .error "failed to open MSI database" ∧
    extract_msi_files oracleFilesQueryFail 4 = .error "File table query failed" ∧
    extract_msi_registry oracleFilesQueryFail
      = .ok [.createKey "HKEY_LOCAL_MACHINE\\Software\\K"] := by
  refine ⟨?_, ?_, ?_⟩
  · exact ((msi_extraction_error_handling oracleOpenFail 4 0 "").1 _ rfl).1
  · exact (msi_extraction_error_handling oracleFilesQueryFail 4 0 "").2.1 () _ rfl rfl
  · exact ((msi_extraction_error_handling oracleFilesQueryFail 4 0 "").2.2.2.1 () _ rfl rfl).trans
      (congrArg Except.ok (by decide))

/-! ## Claims C1 and C10 -/

/-- The walk of `resolveGo` collects exactly the kept display names along the
parent chain, appended to the accumulator in walk order, whenever the chain
reaches a root within the available fuel. -/
lemma resolveGo_eq_of_chain (dirMap parentMap : String → Option String) :
    ∀ (fuel : Nat) (dirId : String) (chain : List String) (acc : List String),
      chainIds parentMap fuel dirId = some chain →
      resolveGo dirMap parentMap fuel dirId acc
        = acc ++ (chain.filterMap dirMap).filter keepName := by
  intro fuel
  induction fuel with
  | zero =>
    intro dirId chain acc h
    exact absurd h (by simp [chainIds])
  | succ fuel ih =>
    intro dirId chain acc h
    simp only [chainIds] at h
    simp only [resolveGo]
    cases hp : parentMap dirId with
    | none =>
      rw [hp] at h
      dsimp only at h
      obtain rfl : chain = [dirId] := by injection h with h2; exact h2.symm
      dsimp only
      cases hd : dirMap dirId with
      | none => simp [List.filterMap_cons, hd]
      | some nm =>
        by_cases hk : keepName nm = true
        · simp [List.filterMap_cons, List.filter_cons, hd, hk]
        · simp [List.filterMap_cons, List.filter_cons, hd, hk]
    | some p =>
      rw [hp] at h
      dsimp only at h
      cases hc : chainIds parentMap fuel p with
      | none =>
        rw [hc] at h
        exact absurd h (by simp)
      | some c2 =>
        rw [hc] at h
        have h2 : some (dirId :: c2) = some chain := h
        obtain rfl : chain = dirId :: c2 := by injection h2 with h3; exact h3.symm
        dsimp only
        cases hd : dirMap dirId with
        | none =>
          dsimp only
          rw [ih p c2 acc hc]
          simp [List.filterMap_cons, hd]
        | some nm =>
          dsimp only
          by_cases hk : keepName nm = true
          · rw [if_pos hk, ih p c2 (acc ++ [nm]) hc]
            simp [List.filterMap_cons, List.filter_cons, hd, hk, List.append_assoc]
          · rw [if_neg hk, ih p c2 acc hc]
            simp [List.filterMap_cons, List.filter_cons, hd, hk]

/-- A parent chain found with some fuel is unchanged by any larger fuel. -/
lemma chainIds_mono (parentMap : String → Option String) :
    ∀ (n : Nat) (dirId : String) (chain : List String) (m : Nat),
      chainIds parentMap n dirId = some chain → n ≤ m →
      chainIds parentMap m dirId = some chain := by
  intro n
  induction n with
  | zero =>
    intro dirId chain m h _
    exact absurd h (by simp [chainIds])
  | succ n ih =>
    intro dirId chain m h hle
    obtain ⟨m2, rfl⟩ : ∃ m2, m = m2 + 1 := ⟨m - 1, by omega⟩
    simp only [chainIds] at h ⊢
    cases hp : parentMap dirId with
    | none =>
      rw [hp] at h
      exact h
    | some p =>
      rw [hp] at h
      dsimp only at h
      cases hc : chainIds parentMap n p with
      | none =>
        rw [hc] at h
        exact absurd h (by simp)
      | some c2 =>
        rw [hc] at h
        dsimp only
        rw [ih p c2 m2 hc (by omega)]
        exact h

/-- Membership in the built name map is exactly having a Directory row. -/
lemma dirMapOf_foldl_isSome :
    ∀ (dirs : List DirectoryEntry) (m : String → Option String) (x : String),
      ((dirs.foldl (fun m d => updateMap m d.directory (decodeName d.default_dir)) m) x).isSome
        ↔ (m x).isSome ∨ ∃ d ∈ dirs, d.directory = x := by
  intro dirs
  induction dirs with
  | nil =>
    intro m x
    simp
  | cons d dirs ih =>
    intro m x
    rw [List.foldl_cons, ih]
    constructor
    · rintro (h | ⟨d2, hd2, hdx⟩)
      · by_cases hxd : x = d.directory
        · exact Or.inr ⟨d, List.mem_cons_self _ _, hxd.symm⟩
        · simp only [updateMap, if_neg hxd] at h
          exact Or.inl h
      · exact Or.inr ⟨d2, List.mem_cons_of_mem _ hd2, hdx⟩
    · rintro (h | ⟨d2, hd2, hdx⟩)
      · left
        by_cases hxd : x = d.directory
        · simp [updateMap, hxd]
        · simp only [updateMap, if_neg hxd]
          exact h
      · rcases List.mem_cons.mp hd2 with rfl | hd2'
        · left
          simp [updateMap, ← hdx]
        · right
          exact ⟨d2, hd2', hdx⟩

/-- Specialization of the previous lemma to `dirMapOf`. -/
lemma dirMapOf_isSome_iff (dirs : List DirectoryEntry) (x : String) :
    (dirMapOf dirs x).isSome ↔ ∃ d ∈ dirs, d.directory = x := by
  rw [dirMapOf, dirMapOf_foldl_isSome]
  simp

/-- Claim C1: with every parent chain reaching a root, the hierarchy maps
each directory id with a row to the path obtained by walking its parent
chain, collecting the decoded names while skipping empty names, the
TARGETDIR sentinel and ".", reversing to root-to-leaf order and joining with
a backslash. -/
theorem resolve_directory_path_follows_chain (dirs : List DirectoryEntry)
    (fuel : Nat) (dirId : String) (chain : List String)
    (hchain : chainIds (parentMapOf dirs) fuel dirId = some chain)
    (hrow : (dirMapOf dirs dirId).isSome) :
    build_directory_hierarchy fuel dirs dirId
      = some (String.intercalate "\\"
          (((chain.filterMap (dirMapOf dirs)).filter keepName).reverse)) := by
  obtain ⟨nm, hnm⟩ := Option.isSome_iff_exists.mp hrow
  simp only [build_directory_hierarchy, hnm]
  rw [resolve_directory_path, resolveGo_eq_of_chain _ _ fuel dirId chain [] hchain]
  simp

/-- Directory rows of the claim example: R (root, Src), A (child, PF),
B (grandchild, App). -/
def exDirs : List DirectoryEntry :=
  [{ directory := "R", directory_parent := none, default_dir := "Src" },
   { directory := "A", directory_parent := some "R", default_dir := "PF" },
   { directory := "B", directory_parent := some "A", default_dir := "App" }]

/-- Claim C1 witness: resolving B in the example rows yields Src\PF\App. -/
theorem resolve_directory_path_follows_chain_witness :
    build_directory_hierarchy 3 exDirs "B" = some "Src\\PF\\App" :=
  (resolve_directory_path_follows_chain exDirs 3 "B" ["B", "A", "R"]
    (by decide) (by decide)).trans (by decide)

/-- Two Directory rows forming a parent cycle A → B → A. -/
def cyclicDirs : List DirectoryEntry :=
  [{ directory := "A", directory_parent := some "B", default_dir := "x" },
   { directory := "B", directory_parent := some "A", default_dir := "y" }]

/-- On the cyclic rows the walk accumulates one name per fuel unit and never
stabilizes: the source loop, which has no fuel, would never terminate. -/
lemma cyclic_resolveGo_length :
    ∀ (fuel : Nat) (dirId : String) (acc : List String),
      dirId = "A" ∨ dirId = "B" →
      (resolveGo (dirMapOf cyclicDirs) (parentMapOf cyclicDirs) fuel dirId acc).length
        = acc.length + fuel := by
  intro fuel
  induction fuel with
  | zero =>
    intro dirId acc _
    simp [resolveGo]
  | succ fuel ih =>
    intro dirId acc hd
    rcases hd with rfl | rfl
    · rw [show resolveGo (dirMapOf cyclicDirs) (parentMapOf cyclicDirs) (fuel + 1) "A" acc
          = resolveGo (dirMapOf cyclicDirs) (parentMapOf cyclicDirs) fuel "B" (acc ++ ["x"])
          from rfl]
      rw [ih "B" (acc ++ ["x"]) (Or.inr rfl)]
      simp only [List.length_append, List.length_cons, List.length_nil]
      omega
    · rw [show resolveGo (dirMapOf cyclicDirs) (parentMapOf cyclicDirs) (fuel + 1) "B" acc
          = resolveGo (dirMapOf cyclicDirs) (parentMapOf cyclicDirs) fuel "A" (acc ++ ["y"])
          from rfl]
      rw [ih "A" (acc ++ ["y"]) (Or.inl rfl)]
      simp only [List.length_append, List.length_cons, List.length_nil]
      omega

/-- Claim C10: under the acyclicity precondition (every row's parent chain
reaches a root within the given fuel) building the hierarchy assigns a
resolved path to every directory id and the result is stable under any
larger fuel, so the unbounded source loop terminates with this value; on a
parent cycle the walk instead grows by one name per step and never
stabilizes, so the walk is well-founded only under the precondition. -/
theorem directory_hierarchy_termination (dirs : List DirectoryEntry) (fuel : Nat)
    (hacyc : ∀ d ∈ dirs, ∃ chain,
        chainIds (parentMapOf dirs) fuel d.directory = some chain) :
    ((∀ d ∈ dirs, ∃ p, build_directory_hierarchy fuel dirs d.directory = some p) ∧
     (∀ fuel2, fuel ≤ fuel2 → ∀ dirId,
        build_directory_hierarchy fuel2 dirs dirId
          = build_directory_hierarchy fuel dirs dirId)) ∧
    (∀ f, (resolveGo (dirMapOf cyclicDirs) (parentMapOf cyclicDirs) f "A" []).length = f) := by
  refine ⟨⟨?_, ?_⟩, ?_⟩
  · intro d hd
    have hs : (dirMapOf dirs d.directory).isSome := by
      rw [dirMapOf_isSome_iff]
      exact ⟨d, hd, rfl⟩
    obtain ⟨nm, hnm⟩ := Option.isSome_iff_exists.mp hs
    exact ⟨resolve_directory_path fuel d.directory (dirMapOf dirs) (parentMapOf dirs),
      by simp [build_directory_hierarchy, hnm]⟩
  · intro fuel2 hle dirId
    cases hnm : dirMapOf dirs dirId with
    | none => simp [build_directory_hierarchy, hnm]
    | some nm =>
      have hs : (dirMapOf dirs dirId).isSome := by simp [hnm]
      obtain ⟨d, hd, rfl⟩ := (dirMapOf_isSome_iff dirs dirId).mp hs
      obtain ⟨chain, hchain⟩ := hacyc d hd
      have hchain2 := chainIds_mono (parentMapOf dirs) fuel d.directory chain fuel2 hchain hle
      simp only [build_directory_hierarchy, hnm]
      rw [resolve_directory_path, resolve_directory_path,
        resolveGo_eq_of_chain _ _ fuel2 _ chain [] hchain2,
        resolveGo_eq_of_chain _ _ fuel _ chain [] hchain]
  · intro f
    simpa using cyclic_resolveGo_length f "A" [] (Or.inl rfl)

/-- Claim C10 witness: the acyclic example rows give a path for every row and
a fuel-independent result. -/
theorem directory_hierarchy_termination_witness :
    (∃ p, build_directory_hierarchy 3 exDirs "R" = some p) ∧
    build_directory_hierarchy 9 exDirs "A" = build_directory_hierarchy 3 exDirs "A" := by
  have hacyc : ∀ d ∈ exDirs, ∃ chain,
      chainIds (parentMapOf exDirs) 3 d.directory = some chain := by
    intro d hd
    simp only [exDirs, List.mem_cons, List.not_mem_nil, or_false] at hd
    rcases hd with rfl | rfl | rfl
    · exact ⟨["R"], by decide⟩
    · exact ⟨["A", "R"], by decide⟩
    · exact ⟨["B", "A", "R"], by decide⟩
  have h := directory_hierarchy_termination exDirs 3 hacyc
  exact ⟨h.1.1 { directory := "R", directory_parent := none, default_dir := "Src" } (by decide),
    h.1.2 9 (by omega) "A"⟩

/-! ## Claims C2 and C6: the chunked search -/

/-- Membership after one chunk pass: a pattern is recorded exactly when it
was already recorded or occurs in the search buffer. -/
lemma mem_search_chunk (sb : List Nat) :
    ∀ (ps found : List (List Nat)) (q : List Nat),
      q ∈ search_chunk found sb ps ↔ q ∈ found ∨ (q ∈ ps ∧ q <:+: sb) := by
  intro ps
  induction ps with
  | nil =>
    intro found q
    simp [search_chunk]
  | cons p ps ih =>
    intro found q
    have hstep : search_chunk found sb (p :: ps)
        = search_chunk (if p <:+: sb ∧ p ∉ found then found ++ [p] else found) sb ps := rfl
    rw [hstep, ih]
    by_cases hc : p <:+: sb ∧ p ∉ found
    · simp only [if_pos hc, List.mem_append, List.mem_singleton, List.mem_cons,
        List.not_mem_nil, or_false]
      constructor
      · rintro ((hq | rfl) | ⟨hq, hinf⟩)
        · exact Or.inl hq
        · exact Or.inr ⟨Or.inl rfl, hc.1⟩
        · exact Or.inr ⟨Or.inr hq, hinf⟩
      · rintro (hq | ⟨rfl | hq, hinf⟩)
        · exact Or.inl (Or.inl hq)
        · exact Or.inl (Or.inr rfl)
        · exact Or.inr ⟨hq, hinf⟩
    · rw [if_neg hc]
      push_neg at hc
      simp only [List.mem_cons]
      constructor
      · rintro (hq | ⟨hq, hinf⟩)
        · exact Or.inl hq
        · exact Or.inr ⟨Or.inr hq, hinf⟩
      · rintro (hq | ⟨rfl | hq, hinf⟩)
        · exact Or.inl hq
        · exact Or.inl (hc hinf)
        · exact Or.inr ⟨hq, hinf⟩

/-- One chunk pass preserves the no-duplicates invariant of the found list. -/
lemma nodup_search_chunk (sb : List Nat) :
    ∀ (ps found : List (List Nat)), found.Nodup → (search_chunk found sb ps).Nodup := by
  intro ps
  induction ps with
  | nil =>
    intro found h
    exact h
  | cons p ps ih =>
    intro found h
    have hstep : search_chunk found sb (p :: ps)
        = search_chunk (if p <:+: sb ∧ p ∉ found then found ++ [p] else found) sb ps := rfl
    rw [hstep]
    apply ih
    by_cases hc : p <:+: sb ∧ p ∉ found
    · rw [if_pos hc, List.nodup_append]
      refine ⟨h, List.nodup_singleton p, ?_⟩
      intro a ha hb
      rw [List.mem_singleton] at hb
      subst hb
      exact hc.2 ha
    · rw [if_neg hc]
      exact h

/-- Straddle argument: an occurrence inside a concatenation that is not
contained in the left part must fit inside the trailing k elements of the
left part together with the right part, provided the pattern has at most
k + 1 elements. -/
lemma infix_split_drop {α : Type} (q A B : List α) (k : Nat)
    (h1 : q <:+: A ++ B) (h2 : ¬ q <:+: A) (h3 : q.length ≤ k + 1)
    (h4 : k ≤ A.length) :
    q <:+: A.drop (A.length - k) ++ B := by
  obtain ⟨s, t, hst⟩ := h1
  have hlen_eq : s.length + (q.length + t.length) = A.length + B.length := by
    simpa [List.length_append] using congrArg List.length hst
  have hgt : A.length < s.length + q.length := by
    by_contra hle
    push_neg at hle
    apply h2
    have hp1 : s ++ q <+: A ++ B := ⟨t, hst⟩
    have hp2 : A <+: A ++ B := ⟨B, rfl⟩
    have hsq : s ++ q <+: A :=
      List.prefix_of_prefix_length_le hp1 hp2 (by simpa [List.length_append] using hle)
    obtain ⟨u, hu⟩ := hsq
    exact ⟨s, u, by rw [← hu]⟩
  have hsufQT : q ++ t <:+ A ++ B := ⟨s, by rw [← hst, List.append_assoc]⟩
  have hsufT : A.drop (A.length - k) ++ B <:+ A ++ B :=
    ⟨A.take (A.length - k), by rw [← List.append_assoc, List.take_append_drop]⟩
  have hlen2 : (q ++ t).length ≤ (A.drop (A.length - k) ++ B).length := by
    simp only [List.length_append, List.length_drop]
    omega
  have hQT := List.suffix_of_suffix_length_le hsufQT hsufT hlen2
  obtain ⟨u, hu⟩ := hQT
  exact ⟨u, t, by rw [← hu, List.append_assoc]⟩

/-- Main loop invariant of the chunked search: with enough fuel, a suffix
position consistent with the file, a duplicate-free sound found list and
every missing occurrence still ahead of the read position (with at least the
overlap retained), the loop returns exactly the patterns occurring in the
file, without duplicates. -/
lemma search_go_exact (file : List Nat) (patterns : List (List Nat))
    (hlen : ∀ p ∈ patterns, p.length < OVERLAP_SIZE) :
    ∀ (fuel : Nat) (rest overlapBuf : List Nat) (found : List (List Nat)),
      rest.length ≤ fuel →
      overlapBuf ++ rest <:+ file →
      found.Nodup →
      (∀ q ∈ found, q ∈ patterns ∧ q <:+: file) →
      (∀ q ∈ patterns, q <:+: file → q ∉ found →
        q <:+: overlapBuf ++ rest ∧ rest ≠ []) →
      (∀ q, q ∈ search_go patterns fuel rest overlapBuf found
          ↔ q ∈ patterns ∧ q <:+: file) ∧
      (search_go patterns fuel rest overlapBuf found).Nodup := by
  intro fuel
  induction fuel with
  | zero =>
    intro rest overlapBuf found hfuel hsuf hnd hsound hcomp
    have hrest : rest = [] := List.eq_nil_of_length_eq_zero (Nat.le_zero.mp hfuel)
    subst hrest
    refine ⟨fun q => ⟨fun hq => hsound q hq, ?_⟩, hnd⟩
    rintro ⟨hqp, hqf⟩
    by_contra hq
    exact (hcomp q hqp hqf hq).2 rfl
  | succ fuel ih =>
    intro rest overlapBuf found hfuel hsuf hnd hsound hcomp
    by_cases hrest : rest = []
    · subst hrest
      rw [show search_go patterns (fuel + 1) [] overlapBuf found = found from rfl]
      refine ⟨fun q => ⟨fun hq => hsound q hq, ?_⟩, hnd⟩
      rintro ⟨hqp, hqf⟩
      by_contra hq
      exact (hcomp q hqp hqf hq).2 rfl
    · have hlt : 0 < rest.length := List.length_pos.mpr hrest
      have hunfold : search_go patterns (fuel + 1) rest overlapBuf found
          = if (search_chunk found (overlapBuf ++ rest.take CHUNK_SIZE) patterns).length
              = patterns.length
            then search_chunk found (overlapBuf ++ rest.take CHUNK_SIZE) patterns
            else search_go patterns fuel (rest.drop CHUNK_SIZE)
              (if rest.drop CHUNK_SIZE = [] then []
               else (rest.take CHUNK_SIZE).drop
                 ((rest.take CHUNK_SIZE).length - OVERLAP_SIZE))
              (search_chunk found (overlapBuf ++ rest.take CHUNK_SIZE) patterns) := by
        simp only [search_go]
        rw [if_neg hrest]
      rw [hunfold]
      have hsb_pref : overlapBuf ++ rest.take CHUNK_SIZE <+: overlapBuf ++ rest :=
        ⟨rest.drop CHUNK_SIZE, by rw [List.append_assoc, List.take_append_drop]⟩
      have hsb_inf : ∀ q : List Nat,
          q <:+: overlapBuf ++ rest.take CHUNK_SIZE → q <:+: file :=
        fun q hq => (hq.trans (infixFromPrefixFact hsb_pref)).trans (infixFromSuffixFact hsuf)
      have hsound2 : ∀ q ∈ search_chunk found (overlapBuf ++ rest.take CHUNK_SIZE) patterns,
          q ∈ patterns ∧ q <:+: file := by
        intro q hq
        rcases (mem_search_chunk _ _ _ q).mp hq with hqf | ⟨hqp, hqi⟩
        · exact hsound q hqf
        · exact ⟨hqp, hsb_inf q hqi⟩
      have hnd2 : (search_chunk found (overlapBuf ++ rest.take CHUNK_SIZE) patterns).Nodup :=
        nodup_search_chunk _ _ _ hnd
      have hfound_sub : ∀ q ∈ found,
          q ∈ search_chunk found (overlapBuf ++ rest.take CHUNK_SIZE) patterns :=
        fun q hq => (mem_search_chunk _ _ _ q).mpr (Or.inl hq)
      by_cases hbreak : (search_chunk found (overlapBuf ++ rest.take CHUNK_SIZE) patterns).length
          = patterns.length
      · rw [if_pos hbreak]
        refine ⟨fun q => ⟨fun hq => hsound2 q hq, ?_⟩, hnd2⟩
        rintro ⟨hqp, -⟩
        have hsubF : (search_chunk found (overlapBuf ++ rest.take CHUNK_SIZE) patterns).toFinset
            ⊆ patterns.toFinset := by
          intro x hx
          rw [List.mem_toFinset] at hx ⊢
          exact (hsound2 x hx).1
        have hcard : patterns.toFinset.card
            ≤ (search_chunk found (overlapBuf ++ rest.take CHUNK_SIZE) patterns).toFinset.card := by
          rw [List.toFinset_card_of_nodup hnd2, hbreak]
          exact List.toFinset_card_le _
        have heqF := Finset.eq_of_subset_of_card_le hsubF hcard
        have hqF : q ∈ patterns.toFinset := List.mem_toFinset.mpr hqp
        rw [← heqF] at hqF
        exact List.mem_toFinset.mp hqF
      · rw [if_neg hbreak]
        have hC : 0 < CHUNK_SIZE := by decide
        have hfuel2 : (rest.drop CHUNK_SIZE).length ≤ fuel := by
          rw [List.length_drop]
          omega
        by_cases hrest2 : rest.drop CHUNK_SIZE = []
        · rw [if_pos hrest2, hrest2]
          have hall : rest.take CHUNK_SIZE = rest :=
            List.take_of_length_le (List.drop_eq_nil_iff.mp hrest2)
          refine ih [] [] _ (by simp) ?_ hnd2 hsound2 ?_
          · simp
          · intro q hqp hqf hqnf2
            exfalso
            have hqi : q <:+: overlapBuf ++ rest :=
              (hcomp q hqp hqf (fun hq => hqnf2 (hfound_sub q hq))).1
            rw [← hall] at hqi
            exact hqnf2 ((mem_search_chunk _ _ _ q).mpr (Or.inr ⟨hqp, hqi⟩))
        · rw [if_neg hrest2]
          have hCl : CHUNK_SIZE < rest.length := by
            by_contra hx
            push_neg at hx
            exact hrest2 (List.drop_eq_nil_iff.mpr hx)
          have hClen : (rest.take CHUNK_SIZE).length = CHUNK_SIZE := by
            rw [List.length_take]
            omega
          have hoc : OVERLAP_SIZE ≤ CHUNK_SIZE := by decide
          have hsuf2 : (rest.take CHUNK_SIZE).drop ((rest.take CHUNK_SIZE).length - OVERLAP_SIZE)
              ++ rest.drop CHUNK_SIZE <:+ file := by
            have h1 := suffixAppendRight (rest.drop CHUNK_SIZE)
              (List.drop_suffix ((rest.take CHUNK_SIZE).length - OVERLAP_SIZE)
                (rest.take CHUNK_SIZE))
            rw [List.take_append_drop] at h1
            exact (h1.trans (List.suffix_append overlapBuf rest)).trans hsuf
          refine ih _ _ _ hfuel2 hsuf2 hnd2 hsound2 ?_
          intro q hqp hqf hqnf2
          have hqnf : q ∉ found := fun hq => hqnf2 (hfound_sub q hq)
          have hqni : ¬ q <:+: overlapBuf ++ rest.take CHUNK_SIZE :=
            fun hq => hqnf2 ((mem_search_chunk _ _ _ q).mpr (Or.inr ⟨hqp, hq⟩))
          have hqio : q <:+: overlapBuf ++ rest := (hcomp q hqp hqf hqnf).1
          refine ⟨?_, hrest2⟩
          have h1 : q <:+: (overlapBuf ++ rest.take CHUNK_SIZE) ++ rest.drop CHUNK_SIZE := by
            rw [List.append_assoc, List.take_append_drop]
            exact hqio
          have hq3 : q.length ≤ OVERLAP_SIZE + 1 := by
            have := hlen q hqp
            omega
          have h4 : OVERLAP_SIZE ≤ (overlapBuf ++ rest.take CHUNK_SIZE).length := by
            rw [List.length_append, hClen]
            omega
          have hstr := infix_split_drop q (overlapBuf ++ rest.take CHUNK_SIZE)
            (rest.drop CHUNK_SIZE) OVERLAP_SIZE h1 hqni hq3 h4
          have heq2 : (overlapBuf ++ rest.take CHUNK_SIZE).drop
              ((overlapBuf ++ rest.take CHUNK_SIZE).length - OVERLAP_SIZE)
              = (rest.take CHUNK_SIZE).drop ((rest.take CHUNK_SIZE).length - OVERLAP_SIZE) := by
            have hlen3 : (overlapBuf ++ rest.take CHUNK_SIZE).length - OVERLAP_SIZE
                = overlapBuf.length + ((rest.take CHUNK_SIZE).length - OVERLAP_SIZE) := by
              rw [List.length_append, hClen]
              omega
            rw [hlen3, List.drop_append]
          rw [heq2] at hstr
          exact hstr

/-- Exactness of the chunked search for nonempty patterns shorter than the
overlap: the result is precisely the set of patterns occurring in the file,
recorded without duplicates. -/
lemma search_file_content_mem_iff (file : List Nat) (patterns : List (List Nat))
    (hne : ∀ p ∈ patterns, p ≠ [])
    (hlen : ∀ p ∈ patterns, p.length < OVERLAP_SIZE) :
    (∀ p, p ∈ search_file_content file patterns ↔ p ∈ patterns ∧ p <:+: file) ∧
    (search_file_content file patterns).Nodup := by
  have hcomp : ∀ q ∈ patterns, q <:+: file → q ∉ ([] : List (List Nat)) →
      q <:+: [] ++ file ∧ file ≠ [] := by
    intro q hqp hqf _
    constructor
    · simpa using hqf
    · rintro rfl
      obtain ⟨s, t, hst⟩ := hqf
      rcases List.append_eq_nil.mp hst with ⟨h1, -⟩
      rcases List.append_eq_nil.mp h1 with ⟨-, h4⟩
      exact hne q hqp h4
  exact search_go_exact file patterns hlen file.length file [] [] (le_refl _)
    (by simp) List.nodup_nil (by simp) hcomp

/-- Claim C2 (amended: the patterns must additionally be nonempty — the
empty pattern occurs in every file but the loop body never runs on an empty
file, so it is missed there): for every file and list of distinct nonempty
ASCII patterns shorter than the 1 KiB overlap, the chunked search returns
exactly the set of patterns occurring as substrings of the file, each
recorded once, agreeing with a whole-file search regardless of chunk
boundaries. -/
theorem search_file_content_exact (file : List Nat) (patterns : List (List Nat))
    (hnd : patterns.Nodup)
    (hascii : ∀ p ∈ patterns, ∀ b ∈ p, b < 128)
    (hne : ∀ p ∈ patterns, p ≠ [])
    (hlen : ∀ p ∈ patterns, p.length < OVERLAP_SIZE) :
    (∀ p, p ∈ search_file_content file patterns ↔ p ∈ patterns ∧ p <:+: file) ∧
    (search_file_content file patterns).Nodup :=
  search_file_content_mem_iff file patterns hne hlen

/-- Claim C2, counterexample: the empty pattern is ASCII, shorter than the
overlap and a substring of the empty file, yet searching the empty file for
it returns nothing, because the chunk loop never executes — so, as stated,
the result is not always the set of occurring patterns. -/
theorem search_file_content_empty_pattern_cex :
    search_file_content [] [[]] = [] ∧ ([] : List Nat) <:+: ([] : List Nat) ∧
    ([] : List Nat).length < OVERLAP_SIZE :=
  ⟨rfl, ⟨[], [], rfl⟩, by decide⟩

/-- Claim C2 witness: a two-pattern search on a small file finds exactly the
pattern that occurs, once. -/
theorem search_file_content_exact_witness :
    strBytes "cde" ∈ search_file_content (strBytes "abcdef")
      [strBytes "cde", strBytes "zz"] ∧
    strBytes "zz" ∉ search_file_content (strBytes "abcdef")
      [strBytes "cde", strBytes "zz"] := by
  have h := search_file_content_exact (strBytes "abcdef") [strBytes "cde", strBytes "zz"]
    (by decide) (by decide) (by decide) (by decide)
  constructor
  · exact (h.1 _).mpr (by decide)
  · intro hmem
    exact (by decide : ¬ (strBytes "zz" ∈ [strBytes "cde", strBytes "zz"] ∧
      strBytes "zz" <:+: strBytes "abcdef")) ((h.1 _).mp hmem)

/-! ## Claim C6 -/

/-- Claim C6, counterexample: a readable file with no recognized extension
that is not a PE file makes format detection return an error, not the
Unknown tag, refuting totality as claimed. -/
theorem detect_installer_format_error_cex :
    detect_installer_format none [0] "data.bin"
      = .error "Unable to determine installer format for: data.bin" := rfl

/-- Claim C6 (amended): format classification is not total — when neither
the extension nor the PE header matches, detection fails with an
unable-to-determine error naming the path; detection succeeds for every PE
file, returning the Unknown tag (not an error) when no installer pattern
occurs in the content, and extension matches succeed immediately. -/
theorem detect_installer_format_partial_spec (ext : Option String)
    (file : List Nat) (pathText : String) :
    (detect_format_by_extension ext = none → is_pe_file file = false →
        detect_installer_format ext file pathText
          = .error ("Unable to determine installer format for: " ++ pathText)) ∧
    (detect_format_by_extension ext = none → is_pe_file file = true →
        detect_installer_format ext file pathText
          = .ok (detect_pe_installer_format file)) ∧
    (∀ fmt, detect_format_by_extension ext = some fmt →
        detect_installer_format ext file pathText = .ok fmt) ∧
    ((∀ p ∈ nsis_patterns ++ inno_patterns ++ installshield_patterns ++ wix_patterns,
        ¬ p <:+: file) →
      detect_pe_installer_format file = .unknown) := by
  refine ⟨?_, ?_, ?_, ?_⟩
  · intro hext hpe
    simp [detect_installer_format, hext, hpe]
  · intro hext hpe
    simp [detect_installer_format, hext, hpe]
  · intro fmt hext
    simp [detect_installer_format, hext]
  · intro hnone
    have hs : ∀ ps : List (List Nat),
        (∀ p ∈ ps, p ≠ []) → (∀ p ∈ ps, p.length < OVERLAP_SIZE) →
        (∀ p ∈ ps, ¬ p <:+: file) → search_file_content file ps = [] := by
      intro ps h3 h4 h5
      have h := search_file_content_mem_iff file ps h3 h4
      rw [List.eq_nil_iff_forall_not_mem]
      intro p hp
      obtain ⟨hpp, hpi⟩ := (h.1 p).mp hp
      exact h5 p hpp hpi
    have e1 : search_file_content file nsis_patterns = [] :=
      hs _ (by decide) (by decide) (fun p hp => hnone p (by simp [hp]))
    have e2 : search_file_content file inno_patterns = [] :=
      hs _ (by decide) (by decide) (fun p hp => hnone p (by simp [hp]))
    have e3 : search_file_content file installshield_patterns = [] :=
      hs _ (by decide) (by decide) (fun p hp => hnone p (by simp [hp]))
    have e4 : search_file_content file wix_patterns = [] :=
      hs _ (by decide) (by decide) (fun p hp => hnone p (by simp [hp]))
    simp [detect_pe_installer_format, e1, e2, e3, e4]

/-- Claim C6 witness: a PE file with no installer patterns classifies as
Unknown without error, a known extension classifies immediately, and a
non-PE file without a known extension errors. -/
theorem detect_installer_format_partial_witness :
    detect_installer_format none [0x4D, 0x5A] "app.bin" = .ok .unknown ∧
    detect_installer_format (some "msi") [] "x.msi" = .ok .msi ∧
    detect_installer_format none [0x7F] "other.bin"
      = .error "Unable to determine installer format for: other.bin" := by
  refine ⟨?_, ?_, ?_⟩
  · have h := detect_installer_format_partial_spec none [0x4D, 0x5A] "app.bin"
    rw [h.2.1 rfl rfl, h.2.2.2 (by decide)]
  · exact (detect_installer_format_partial_spec (some "msi") [] "x.msi").2.2.1 .msi rfl
  · exact (detect_installer_format_partial_spec none [0x7F] "other.bin").1 rfl rfl

end InstallerAnalyzer
